import Mathlib

/-! Verification development for the text detection demo
(demos/text_detection_demo/main.cpp).

Modelling conventions:
* float / double values that the program only compares, copies and
  combines with ring operations are modelled as exact rationals;
  std::numeric_limits of float has maximum value 2 ^ 128 - 2 ^ 104,
  used verbatim below.
* std::string holding the symbol set is modelled as List Char; decoded
  text is modelled as String.
* External collaborators (OpenCV, the inference engine, the detection
  post-processing and the CTC greedy decoder, none of which are part of
  main.cpp) enter as oracle data carried by the frame / region records.
* std::sort with strict comparator (area a > area b) leaves the order of
  equal-area elements unspecified; it is modelled by insertion sort on
  the non-strict descending area order, one of the permitted outcomes.
-/

/-- A cv::Point2f, with exact rational coordinates. -/
structure Point2f where
  x : ℚ
  y : ℚ
deriving DecidableEq, Repr

/-- std::numeric_limits of float, maximum value: (2 - 2 ^ (-23)) * 2 ^ 127. -/
def fltMax : ℚ := 340282346638528859811704183484516925440

/-- The initial value cv::Point2f(FLT_MAX, FLT_MAX) used by topLeftPoint. -/
def sentinelPt : Point2f := { x := fltMax, y := fltMax }

/-- The four mutable locals of topLeftPoint (main.cpp lines 303-307). -/
structure TLState where
  most_left : Point2f
  almost_most_left : Point2f
  most_left_idx : Int
  almost_most_left_idx : Int
deriving DecidableEq, Repr

/-- Initial state of topLeftPoint: both points FLT_MAX, both indices -1. -/
def tlInit : TLState :=
  { most_left := sentinelPt, almost_most_left := sentinelPt
    most_left_idx := -1, almost_most_left_idx := -1 }

/-- One iteration of the loop in topLeftPoint (main.cpp lines 309-322):
the first if updates most_left (demoting the old one to almost_most_left
unless it is still the FLT_MAX initialiser), the second if updates
almost_most_left from the current point when it is strictly more left and
differs from the current most_left. -/
def tlStep (s : TLState) (i : Nat) (p : Point2f) : TLState :=
  let s1 :=
    if s.most_left.x > p.x then
      if s.most_left.x ≠ fltMax then
        { most_left := p, most_left_idx := (i : Int)
          almost_most_left := s.most_left, almost_most_left_idx := s.most_left_idx }
      else
        { most_left := p, most_left_idx := (i : Int)
          almost_most_left := s.almost_most_left
          almost_most_left_idx := s.almost_most_left_idx }
    else s
  if s1.almost_most_left.x > p.x ∧ p ≠ s1.most_left then
    { most_left := s1.most_left, most_left_idx := s1.most_left_idx
      almost_most_left := p, almost_most_left_idx := (i : Int) }
  else s1

/-- The loop of topLeftPoint, threading the running index i. -/
def tlLoopAux (s : TLState) (i : Nat) : List Point2f → TLState
  | [] => s
  | p :: rest => tlLoopAux (tlStep s i p) (i + 1) rest

/-- cv::Point topLeftPoint(points, idx) (main.cpp lines 302-331): runs the
loop, then replaces most_left by almost_most_left when the latter has the
strictly smaller y; returns the chosen point and writes the chosen index. -/
def topLeftPoint (points : List Point2f) : Point2f × Int :=
  let s := tlLoopAux tlInit 0 points
  if s.almost_most_left.y < s.most_left.y then (s.almost_most_left, s.almost_most_left_idx)
  else (s.most_left, s.most_left_idx)

/-- int clip(int x, int max_val) (main.cpp lines 60-62). -/
def clip (x maxVal : Int) : Int := min (max x 0) maxVal

/-- static_cast from float to int: truncation toward zero, exact on the
rational model. -/
def truncQ (q : ℚ) : Int := q.num.tdiv (q.den : Int)

/-- 3x3 determinant, row major. -/
def det3 (a b c d e f g h i : ℚ) : ℚ :=
  a * (e * i - f * h) - b * (d * i - f * g) + c * (d * h - e * g)

/-- A 2x3 affine matrix as produced by cv::getAffineTransform. -/
structure AffineM where
  a : ℚ
  b : ℚ
  c : ℚ
  d : ℚ
  e : ℚ
  f : ℚ
deriving DecidableEq, Repr

/-- Apply a 2x3 affine matrix to a point. -/
def applyAffine (m : AffineM) (p : Point2f) : Point2f :=
  { x := m.a * p.x + m.b * p.y + m.c, y := m.d * p.x + m.e * p.y + m.f }

/-- cv::getAffineTransform on three source / destination pairs: the unique
affine map carrying s0, s1, s2 to t0, t1, t2, computed by Cramer rule on the
two 3x3 linear systems (OpenCV solves the same systems by LU). -/
def getAffineTransform (s0 s1 s2 t0 t1 t2 : Point2f) : AffineM :=
  let dd := det3 s0.x s0.y 1 s1.x s1.y 1 s2.x s2.y 1
  { a := det3 t0.x s0.y 1 t1.x s1.y 1 t2.x s2.y 1 / dd
    b := det3 s0.x t0.x 1 s1.x t1.x 1 s2.x t2.x 1 / dd
    c := det3 s0.x s0.y t0.x s1.x s1.y t1.x s2.x s2.y t2.x / dd
    d := det3 t0.y s0.y 1 t1.y s1.y 1 t2.y s2.y 1 / dd
    e := det3 s0.x t0.y 1 s1.x t1.y 1 s2.x t2.y 1 / dd
    f := det3 s0.x s0.y t0.y s1.x s1.y t1.y s2.x s2.y t2.y / dd }

/-- The affine transform built by cropImage (main.cpp lines 333-344): source
points are the corners at indices idx, (idx+1) mod 4, (idx+2) mod 4 and the
destinations are (0,0), (w-1,0), (w-1,h-1).  Only the transform construction
is modelled; the warpAffine resampling is external OpenCV code. -/
def cropTransform (points : List Point2f) (targetW targetH : Int) (idx : Nat) : AffineM :=
  let p0 := points.getD idx { x := 0, y := 0 }
  let p1 := points.getD ((idx + 1) % 4) { x := 0, y := 0 }
  let p2 := points.getD ((idx + 2) % 4) { x := 0, y := 0 }
  getAffineTransform p0 p1 p2 { x := 0, y := 0 }
    { x := ((targetW - 1 : Int) : ℚ), y := 0 }
    { x := ((targetW - 1 : Int) : ℚ), y := ((targetH - 1 : Int) : ℚ) }

/-- A cv::RotatedRect: center, size and rotation angle. -/
structure RotatedRect where
  center : Point2f
  width : ℚ
  height : ℚ
  angle : ℚ
deriving DecidableEq, Repr

/-- One detected region together with the oracle results of the external
collaborators for it: the four corner points cv::RotatedRect::points would
produce, and the string / confidence the CTC decoder would produce for its
crop. -/
structure RegionData where
  rect : RotatedRect
  corners : List Point2f
  decoded : String
  conf : ℚ
deriving DecidableEq, Repr

/-- One grabbed frame: the regions the detection post-processing yields for
it, plus the decoder oracle results for the whole-frame crop used when no
detector is configured. -/
structure FrameData where
  regions : List RegionData
  wholeDecoded : String
  wholeConf : ℚ
deriving DecidableEq, Repr

/-- The configuration surface of main (flag values and fixed model
properties).  recogWidth is output_shape[2] of the recognizer, a fixed
property of the loaded network; imgCols / imgRows are the frame size. -/
structure Config where
  td : Bool
  tr : Bool
  trSymbols : List Char
  thr : ℚ
  maxRectNum : Int
  rFlag : Bool
  ccFlag : Bool
  ccPoint : Point2f
  recogWidth : Nat
  imgCols : Int
  imgRows : Int
deriving DecidableEq, Repr

/-- The two fatal errors of main modelled here (main.cpp lines 82 and 192). -/
inductive RunError where
  | padSymbolInAlphabet
  | alphabetMismatch
deriving DecidableEq, Repr

/-- kAlphabet = FLAGS_m_tr_ss + kPadSymbol (main.cpp line 84). -/
def kAlphabet (ss : List Char) : List Char := ss ++ ['#']

/-- Line 202: res = conf >= min_text_recognition_confidence ? res : "";
only the string is reassigned, the confidence is left as is. -/
def thresholdFilter (res : String) (conf thr : ℚ) : String × ℚ :=
  (if thr ≤ conf then res else "", conf)

/-- Rectangle area, cv::Size2f::area(). -/
def areaOf (rd : RegionData) : ℚ := rd.rect.width * rd.rect.height

/-- Non-strict descending-area order on regions (reflexive closure of the
std::sort comparator at main.cpp line 152). -/
def areaGE (a b : RegionData) : Prop := areaOf b ≤ areaOf a

instance : DecidableRel areaGE :=
  fun a b => inferInstanceAs (Decidable (areaOf b ≤ areaOf a))

instance : IsTotal RegionData areaGE :=
  ⟨fun a b => le_total (areaOf b) (areaOf a)⟩

instance : IsTrans RegionData areaGE :=
  ⟨fun _ _ _ h1 h2 => le_trans h2 h1⟩

/-- The region cap (main.cpp lines 150-155): when the cap is non-negative
and exceeded, sort by area descending and truncate; otherwise leave the
list untouched. -/
def capRects (maxRectNum : Int) (l : List RegionData) : List RegionData :=
  if 0 ≤ maxRectNum ∧ maxRectNum < (l.length : Int) then
    (List.insertionSort areaGE l).take maxRectNum.toNat
  else l

/-- The degenerate whole-frame sentinel region pushed when no detector is
configured (main.cpp line 147), paired with the whole-frame oracle data. -/
def sentinelRegion (f : FrameData) : RegionData :=
  { rect := { center := { x := 0, y := 0 }, width := 0, height := 0, angle := 0 }
    corners := [], decoded := f.wholeDecoded, conf := f.wholeConf }

/-- Lines 140-148: detector output when a detector is configured, otherwise
the single degenerate sentinel region. -/
def frameRects (cfg : Config) (f : FrameData) : List RegionData :=
  if cfg.td then f.regions else [sentinelRegion f]

/-- The branch condition at main.cpp line 164: a region is rectified
(cropped via the affine transform) iff its size differs from (0,0) and a
detector is configured. -/
def usesRectification (cfg : Config) (rd : RegionData) : Prop :=
  ¬(rd.rect.width = 0 ∧ rd.rect.height = 0) ∧ cfg.td = true

instance (cfg : Config) (rd : RegionData) : Decidable (usesRectification cfg rd) :=
  inferInstanceAs (Decidable (¬(rd.rect.width = 0 ∧ rd.rect.height = 0) ∧ cfg.td = true))

/-- The point list a region contributes to the textual emission
(main.cpp lines 161-184): the four corners on the rectification branch,
the top-left corner of the central crop when -cc is set, nothing
otherwise. -/
def regionPoints (cfg : Config) (rd : RegionData) : List Point2f :=
  if usesRectification cfg rd then rd.corners
  else if cfg.ccFlag then [cfg.ccPoint] else []

/-- The clipped integer fields printed for a point list (main.cpp
lines 207-212): per point, x clipped to [0, cols-1] then y clipped to
[0, rows-1]. -/
def coordFields (cols rows : Int) : List Point2f → List Int
  | [] => []
  | p :: rest =>
      clip (truncQ p.x) (cols - 1) :: clip (truncQ p.y) (rows - 1) ::
        coordFields cols rows rest

/-- One emitted line of the raw output (main.cpp lines 206-219): the
comma-separated clipped coordinates of all points in traversal order,
followed by a comma and the decoded string when a recognizer is active. -/
def emitLine (cols rows : Int) (points : List Point2f) (trOn : Bool) (res : String) : String :=
  String.intercalate "," ((coordFields cols rows points).map toString)
    ++ (if trOn then "," ++ res else "")

/-- Processing of one region inside the loop at main.cpp lines 159-230:
when a recognizer is active, its output width is checked against the
alphabet first (line 191, fatal on mismatch), then the decoded result is
filtered by the confidence threshold; afterwards, when -r is set, one line
is emitted.  Display-only work (lines 221-229) is external and omitted. -/
def processRegion (cfg : Config) (alphabetLen : Nat) (rd : RegionData) :
    Except RunError (List String) :=
  let pts := regionPoints cfg rd
  if cfg.tr then
    if cfg.recogWidth ≠ alphabetLen then .error .alphabetMismatch
    else
      let fr := thresholdFilter rd.decoded rd.conf cfg.thr
      .ok (if cfg.rFlag then [emitLine cfg.imgCols cfg.imgRows pts true fr.1] else [])
  else
    .ok (if cfg.rFlag then [emitLine cfg.imgCols cfg.imgRows pts false ""] else [])

/-- Sequential region processing: lines emitted so far are kept, a fatal
error stops the loop before the failing region emits anything. -/
def processRegions (cfg : Config) (alphabetLen : Nat) :
    List RegionData → List String × Option RunError
  | [] => ([], none)
  | rd :: rest =>
      match processRegion cfg alphabetLen rd with
      | .error e => ([], some e)
      | .ok ls =>
          let r := processRegions cfg alphabetLen rest
          (ls ++ r.1, r.2)

/-- The frame loop (main.cpp lines 134-252): per frame, substitute the
sentinel when no detector is configured, apply the region cap, process the
regions; a fatal error aborts the run, otherwise the frame counts as fully
processed.  Returns (emitted lines, fully processed frames, fatal error). -/
def runFrames (cfg : Config) (alphabetLen : Nat) :
    List FrameData → List String × Nat × Option RunError
  | [] => ([], 0, none)
  | f :: rest =>
      let rects := capRects cfg.maxRectNum (frameRects cfg f)
      let pr := processRegions cfg alphabetLen rects
      match pr.2 with
      | some e => (pr.1, 0, some e)
      | none =>
          let r := runFrames cfg alphabetLen rest
          (pr.1 ++ r.1, r.2.1 + 1, r.2.2)

/-- main (lines 64-289): the pad-symbol validation at lines 80-84 runs
before anything frame related; on success the frame loop runs with the
internal alphabet FLAGS_m_tr_ss + kPadSymbol. -/
def runMain (cfg : Config) (frames : List FrameData) :
    List String × Nat × Option RunError :=
  if '#' ∈ cfg.trSymbols then ([], 0, some .padSymbolInAlphabet)
  else runFrames cfg (kAlphabet cfg.trSymbols).length frames

/-- Loop invariant of topLeftPoint used for the index-range property: after
n processed points (all of them strictly below FLT_MAX in both
coordinates), either nothing was processed yet, or most_left holds a real
point with an index in [0, n) and almost_most_left is either still the
initialiser or holds an index in [0, n). -/
def RangeInv (n : Nat) (s : TLState) : Prop :=
  (n = 0 ∧ s = tlInit)
  ∨ (0 ≤ s.most_left_idx ∧ s.most_left_idx < (n : Int)
      ∧ s.most_left.x < fltMax ∧ s.most_left.y < fltMax
      ∧ ((s.almost_most_left_idx = -1 ∧ s.almost_most_left = sentinelPt)
          ∨ (0 ≤ s.almost_most_left_idx ∧ s.almost_most_left_idx < (n : Int))))

/-- Loop invariant of topLeftPoint used for the value characterisation, for
prefixes whose x coordinates are pairwise distinct and below FLT_MAX: after
an empty prefix the state is untouched, after one point most_left holds it,
and from two points on most_left and almost_most_left hold the unique
minimum and second minimum of the x coordinates. -/
def CharInv (pre : List Point2f) (s : TLState) : Prop :=
  (pre = [] ∧ s.most_left = sentinelPt ∧ s.almost_most_left = sentinelPt)
  ∨ (pre.length = 1 ∧ s.most_left ∈ pre ∧ s.almost_most_left = sentinelPt)
  ∨ (2 ≤ pre.length ∧ s.most_left ∈ pre ∧ s.almost_most_left ∈ pre
      ∧ s.most_left.x < s.almost_most_left.x
      ∧ (∀ q ∈ pre, s.most_left.x ≤ q.x)
      ∧ (∀ q ∈ pre, q ≠ s.most_left → s.almost_most_left.x ≤ q.x))

/-- Concrete 4-corner input with pairwise distinct, widely separated x
coordinates; the second most-left point has the smallest y. -/
def exC1pts : List Point2f :=
  [{ x := 0, y := 10 }, { x := 100, y := 0 }, { x := 200, y := 5 }, { x := 300, y := 6 }]

/-- Concrete 4-corner input with three points tied at the minimum x. -/
def exC8pts : List Point2f :=
  [{ x := 0, y := 5 }, { x := 0, y := 1 }, { x := 0, y := 3 }, { x := 1, y := 0 }]

/-- A region oracle record used by the concrete runs. -/
def exRegionA : RegionData :=
  { rect := { center := { x := 5, y := 5 }, width := 2, height := 2, angle := 0 }
    corners := [{ x := 4, y := 4 }, { x := 6, y := 4 }, { x := 6, y := 6 }, { x := 4, y := 6 }]
    decoded := "hi", conf := 1 }

/-- Detector and recognizer configured, recognizer width 5 against the
two-symbol alphabet ab plus pad (length 3): a width mismatch. -/
def exCfgMismatch : Config :=
  { td := true, tr := true, trSymbols := ['a', 'b'], thr := 0, maxRectNum := -1
    rFlag := true, ccFlag := false, ccPoint := { x := 0, y := 0 }, recogWidth := 5
    imgCols := 10, imgRows := 10 }

/-- A first frame with no detected regions, then a frame with one region. -/
def exFramesMismatch : List FrameData :=
  [{ regions := [], wholeDecoded := "", wholeConf := 1 },
   { regions := [exRegionA], wholeDecoded := "", wholeConf := 1 }]

/-- No detector, recognizer with width 5 against alphabet a plus pad. -/
def exCfgNoDet : Config :=
  { td := false, tr := true, trSymbols := ['a'], thr := 0, maxRectNum := -1
    rFlag := true, ccFlag := false, ccPoint := { x := 0, y := 0 }, recogWidth := 5
    imgCols := 10, imgRows := 10 }

/-- A symbol set that already contains the reserved pad symbol. -/
def exCfgPad : Config :=
  { td := true, tr := true, trSymbols := ['#', 'a'], thr := 0, maxRectNum := -1
    rFlag := true, ccFlag := false, ccPoint := { x := 0, y := 0 }, recogWidth := 3
    imgCols := 10, imgRows := 10 }

/-- No detector configured, central-crop flag off. -/
def exCfgNoTd : Config :=
  { td := false, tr := false, trSymbols := [], thr := 0, maxRectNum := -1
    rFlag := true, ccFlag := false, ccPoint := { x := 0, y := 0 }, recogWidth := 0
    imgCols := 10, imgRows := 10 }

/-- A frame record for the concrete no-detector run. -/
def exFrameEmpty : FrameData := { regions := [], wholeDecoded := "t", wholeConf := 1 }

/-- Concrete non-collinear corner list for the rectification transform. -/
def exC5pts : List Point2f :=
  [{ x := 0, y := 0 }, { x := 1, y := 0 }, { x := 1, y := 1 }, { x := 0, y := 1 }]

/-- A 1 x 1 region (area 1). -/
def exRegSmall : RegionData :=
  { rect := { center := { x := 1, y := 1 }, width := 1, height := 1, angle := 0 }
    corners := [], decoded := "", conf := 1 }

/-- A 2 x 2 region (area 4). -/
def exRegBig : RegionData :=
  { rect := { center := { x := 5, y := 5 }, width := 2, height := 2, angle := 0 }
    corners := [], decoded := "", conf := 1 }

lemma tlStep_lt_ne (s : TLState) (i : Nat) (p : Point2f)
    (h1 : s.most_left.x > p.x) (h2 : s.most_left.x ≠ fltMax) :
    tlStep s i p =
      { most_left := p, most_left_idx := (i : Int)
        almost_most_left := s.most_left, almost_most_left_idx := s.most_left_idx } := by
  simp only [tlStep]
  rw [if_pos h1, if_pos h2]
  simp

lemma tlStep_lt_max (s : TLState) (i : Nat) (p : Point2f)
    (h1 : s.most_left.x > p.x) (h2 : s.most_left.x = fltMax) :
    tlStep s i p =
      { most_left := p, most_left_idx := (i : Int)
        almost_most_left := s.almost_most_left
        almost_most_left_idx := s.almost_most_left_idx } := by
  simp only [tlStep]
  rw [if_pos h1, if_neg (not_not_intro h2)]
  simp

lemma tlStep_ge_update (s : TLState) (i : Nat) (p : Point2f)
    (h1 : ¬s.most_left.x > p.x) (h3 : s.almost_most_left.x > p.x)
    (h4 : p ≠ s.most_left) :
    tlStep s i p =
      { most_left := s.most_left, most_left_idx := s.most_left_idx
        almost_most_left := p, almost_most_left_idx := (i : Int) } := by
  simp only [tlStep]
  rw [if_neg h1, if_pos ⟨h3, h4⟩]

lemma tlStep_ge_skip (s : TLState) (i : Nat) (p : Point2f)
    (h1 : ¬s.most_left.x > p.x)
    (h3 : ¬(s.almost_most_left.x > p.x ∧ p ≠ s.most_left)) :
    tlStep s i p = s := by
  simp only [tlStep]
  rw [if_neg h1, if_neg h3]

lemma rangeInv_step (n : Nat) (s : TLState) (p : Point2f)
    (hx : p.x < fltMax) (hy : p.y < fltMax) (h : RangeInv n s) :
    RangeInv (n + 1) (tlStep s n p) := by
  rcases h with ⟨hn, hs⟩ | ⟨h1, h2, h3, h4, h5⟩
  · subst hs
    rw [tlStep_lt_max _ _ _ (by simpa [tlInit, sentinelPt] using hx) (by simp [tlInit, sentinelPt])]
    refine Or.inr ⟨by positivity, by push_cast; omega, hx, hy, Or.inl ⟨rfl, rfl⟩⟩
  · by_cases hlt : s.most_left.x > p.x
    · rw [tlStep_lt_ne _ _ _ hlt (ne_of_lt h3)]
      refine Or.inr ⟨by positivity, by push_cast; omega, hx, hy, Or.inr ⟨h1, ?_⟩⟩
      push_cast
      omega
    · by_cases halt : s.almost_most_left.x > p.x ∧ p ≠ s.most_left
      · rw [tlStep_ge_update _ _ _ hlt halt.1 halt.2]
        refine Or.inr ⟨h1, ?_, h3, h4, Or.inr ⟨by positivity, by push_cast; omega⟩⟩
        push_cast
        omega
      · rw [tlStep_ge_skip _ _ _ hlt halt]
        refine Or.inr ⟨h1, ?_, h3, h4, ?_⟩
        · push_cast
          omega
        · rcases h5 with h5 | ⟨h5a, h5b⟩
          · exact Or.inl h5
          · refine Or.inr ⟨h5a, ?_⟩
            push_cast
            omega

lemma rangeInv_loop (rest : List Point2f) :
    ∀ (n : Nat) (s : TLState), RangeInv n s →
      (∀ p ∈ rest, p.x < fltMax ∧ p.y < fltMax) →
      RangeInv (n + rest.length) (tlLoopAux s n rest) := by
  induction rest with
  | nil => intro n s h _; simpa using h
  | cons p rest ih =>
      intro n s h hb
      have hp := hb p (List.mem_cons_self _ _)
      have hrec := ih (n + 1) (tlStep s n p)
        (rangeInv_step n s p hp.1 hp.2 h)
        (fun q hq => hb q (List.mem_cons_of_mem _ hq))
      simp only [tlLoopAux, List.length_cons]
      have harith : n + 1 + rest.length = n + (rest.length + 1) := by omega
      rwa [harith] at hrec

lemma charInv_step (pre : List Point2f) (s : TLState) (i : Nat) (p : Point2f)
    (hbp : p.x < fltMax) (hbpre : ∀ q ∈ pre, q.x < fltMax)
    (hd : ∀ q ∈ pre, p.x ≠ q.x) (h : CharInv pre s) :
    CharInv (pre ++ [p]) (tlStep s i p) := by
  rcases h with ⟨hpre, hm, ha⟩ | ⟨hlen, hm, ha⟩ | ⟨hlen, hm, ha, hlt, hmin, hsec⟩
  · subst hpre
    rw [tlStep_lt_max _ _ _ (by rw [hm]; exact hbp) (by rw [hm]; rfl)]
    exact Or.inr (Or.inl ⟨by simp, by simp, by simpa using ha⟩)
  · obtain ⟨m0, hpre⟩ := List.length_eq_one.mp hlen
    subst hpre
    have hmm : s.most_left = m0 := by simpa using hm
    subst hmm
    have hdm : p.x ≠ s.most_left.x := hd s.most_left (by simp)
    by_cases hlt2 : s.most_left.x > p.x
    · rw [tlStep_lt_ne _ _ _ hlt2 (ne_of_lt (hbpre s.most_left (by simp)))]
      refine Or.inr (Or.inr ⟨by simp, by simp, by simp, by simpa using hlt2, ?_, ?_⟩)
      · intro q hq
        rcases (by simpa using hq : q = s.most_left ∨ q = p) with rfl | rfl
        · exact le_of_lt hlt2
        · exact le_rfl
      · intro q hq hqne
        rcases (by simpa using hq : q = s.most_left ∨ q = p) with rfl | rfl
        · exact le_rfl
        · exact absurd rfl hqne
    · have hgt : s.most_left.x < p.x := lt_of_le_of_ne (not_lt.mp hlt2) hdm.symm
      have hpne : p ≠ s.most_left := fun he => hdm (by rw [he])
      rw [tlStep_ge_update _ _ _ hlt2 (by rw [ha]; exact hbp) hpne]
      refine Or.inr (Or.inr ⟨by simp, by simp, by simp, by simpa using hgt, ?_, ?_⟩)
      · intro q hq
        rcases (by simpa using hq : q = s.most_left ∨ q = p) with rfl | rfl
        · exact le_rfl
        · exact le_of_lt hgt
      · intro q hq hqne
        rcases (by simpa using hq : q = s.most_left ∨ q = p) with rfl | rfl
        · exact absurd rfl hqne
        · exact le_rfl
  · have hdm : p.x ≠ s.most_left.x := hd s.most_left hm
    by_cases hlt2 : s.most_left.x > p.x
    · rw [tlStep_lt_ne _ _ _ hlt2 (ne_of_lt (hbpre s.most_left hm))]
      refine Or.inr (Or.inr ⟨by simp; omega, by simp, by exact List.mem_append_left _ hm, by simpa using hlt2, ?_, ?_⟩)
      · intro q hq
        rcases (by simpa using hq : q ∈ pre ∨ q = p) with hq2 | rfl
        · exact le_of_lt (lt_of_lt_of_le hlt2 (hmin q hq2))
        · exact le_rfl
      · intro q hq hqne
        rcases (by simpa using hq : q ∈ pre ∨ q = p) with hq2 | rfl
        · exact hmin q hq2
        · exact absurd rfl hqne
    · have hgt : s.most_left.x < p.x := lt_of_le_of_ne (not_lt.mp hlt2) hdm.symm
      have hpne : p ≠ s.most_left := fun he => hdm (by rw [he])
      by_cases halt : s.almost_most_left.x > p.x
      · rw [tlStep_ge_update _ _ _ hlt2 halt hpne]
        refine Or.inr (Or.inr ⟨by simp; omega, by exact List.mem_append_left _ hm, by simp, by simpa using hgt, ?_, ?_⟩)
        · intro q hq
          rcases (by simpa using hq : q ∈ pre ∨ q = p) with hq2 | rfl
          · exact hmin q hq2
          · exact le_of_lt hgt
        · intro q hq hqne
          rcases (by simpa using hq : q ∈ pre ∨ q = p) with hq2 | rfl
          · exact le_of_lt (lt_of_lt_of_le halt (hsec q hq2 hqne))
          · exact le_rfl
      · rw [tlStep_ge_skip _ _ _ hlt2 (fun hc => halt hc.1)]
        have hap : s.almost_most_left.x < p.x :=
          lt_of_le_of_ne (not_lt.mp halt) (hd s.almost_most_left ha).symm
        refine Or.inr (Or.inr ⟨by simp; omega, by exact List.mem_append_left _ hm, by exact List.mem_append_left _ ha, hlt, ?_, ?_⟩)
        · intro q hq
          rcases (by simpa using hq : q ∈ pre ∨ q = p) with hq2 | rfl
          · exact hmin q hq2
          · exact le_of_lt hgt
        · intro q hq hqne
          rcases (by simpa using hq : q ∈ pre ∨ q = p) with hq2 | rfl
          · exact hsec q hq2 hqne
          · exact le_of_lt hap

lemma charInv_loop (rest : List Point2f) :
    ∀ (pre : List Point2f) (s : TLState) (i : Nat),
      CharInv pre s →
      (∀ q ∈ pre ++ rest, q.x < fltMax) →
      List.Pairwise (fun u v => u.x ≠ v.x) (pre ++ rest) →
      CharInv (pre ++ rest) (tlLoopAux s i rest) := by
  induction rest with
  | nil => intro pre s i h _ _; simpa using h
  | cons p rest ih =>
      intro pre s i h hb hpw
      have hd : ∀ q ∈ pre, p.x ≠ q.x := by
        have hx := (List.pairwise_append.mp hpw).2.2
        intro q hq
        exact Ne.symm (hx q hq p (List.mem_cons_self _ _))
      have hstep := charInv_step pre s i p (hb p (by simp))
        (fun q hq => hb q (by simp [hq])) hd h
      have hres := ih (pre ++ [p]) (tlStep s i p) (i + 1) hstep
        (by intro q hq; apply hb; simpa [List.append_assoc] using hq)
        (by simpa [List.append_assoc] using hpw)
      simpa [List.append_assoc] using hres

lemma topLeftPoint_charCore (pts : List Point2f) (h2 : 2 ≤ pts.length)
    (hb : ∀ q ∈ pts, q.x < fltMax)
    (hpw : List.Pairwise (fun u v => u.x ≠ v.x) pts) :
    ∃ m a, m ∈ pts ∧ a ∈ pts ∧ m.x < a.x
      ∧ (∀ q ∈ pts, m.x ≤ q.x) ∧ (∀ q ∈ pts, q ≠ m → a.x ≤ q.x)
      ∧ (topLeftPoint pts).1 = if a.y < m.y then a else m := by
  have h := charInv_loop pts [] tlInit 0 (Or.inl ⟨rfl, rfl, rfl⟩)
    (by simpa using hb) (by simpa using hpw)
  simp only [List.nil_append] at h
  rcases h with ⟨hpre, -, -⟩ | ⟨hlen, -, -⟩ | ⟨-, hm, ha, hlt, hmin, hsec⟩
  · rw [hpre] at h2; simp at h2
  · omega
  · refine ⟨(tlLoopAux tlInit 0 pts).most_left, (tlLoopAux tlInit 0 pts).almost_most_left,
      hm, ha, hlt, hmin, hsec, ?_⟩
    simp only [topLeftPoint]
    split_ifs <;> rfl

lemma pairwise_x_inj (l : List Point2f)
    (hpw : List.Pairwise (fun u v => u.x ≠ v.x) l) :
    ∀ a ∈ l, ∀ b ∈ l, a.x = b.x → a = b := by
  induction l with
  | nil => simp
  | cons hd tl ih =>
      intro a ha b hb heq
      rcases List.pairwise_cons.mp hpw with ⟨hhd, htl⟩
      rcases List.mem_cons.mp ha with rfl | ha2 <;> rcases List.mem_cons.mp hb with rfl | hb2
      · rfl
      · exact absurd heq (hhd b hb2)
      · exact absurd heq.symm (hhd a ha2)
      · exact ih htl a ha2 b hb2 heq

lemma selected_unique (l : List Point2f)
    (hinj : ∀ a ∈ l, ∀ b ∈ l, a.x = b.x → a = b)
    {m a m2 a2 : Point2f}
    (hm : m ∈ l) (ha : a ∈ l) (hlt : m.x < a.x)
    (hmin : ∀ q ∈ l, m.x ≤ q.x) (hsec : ∀ q ∈ l, q ≠ m → a.x ≤ q.x)
    (hm2 : m2 ∈ l) (ha2 : a2 ∈ l) (hlt2 : m2.x < a2.x)
    (hmin2 : ∀ q ∈ l, m2.x ≤ q.x) (hsec2 : ∀ q ∈ l, q ≠ m2 → a2.x ≤ q.x) :
    (if a.y < m.y then a else m) = (if a2.y < m2.y then a2 else m2) := by
  have hmm : m = m2 := hinj m hm m2 hm2 (le_antisymm (hmin m2 hm2) (hmin2 m hm))
  subst hmm
  have hane : a ≠ m := fun he => absurd hlt (by rw [he]; exact lt_irrefl _)
  have ha2ne : a2 ≠ m := fun he => absurd hlt2 (by rw [he]; exact lt_irrefl _)
  have haa : a = a2 :=
    hinj a ha a2 ha2 (le_antisymm (hsec a2 ha2 ha2ne) (hsec2 a ha hane))
  rw [haa]

lemma div_combine (A B C D x y u : ℚ) (hD : D ≠ 0)
    (key : A * x + B * y + C = u * D) :
    A / D * x + B / D * y + C / D = u := by
  have h1 : A / D * x + B / D * y + C / D = (A * x + B * y + C) / D := by ring
  rw [h1, key, mul_div_cancel_right₀ u hD]

lemma point_eq_of_parts {p q : Point2f} (hx : p.x = q.x) (hy : p.y = q.y) : p = q := by
  cases p
  cases q
  simp only at hx hy
  rw [hx, hy]

lemma getAffineTransform_maps (s0 s1 s2 t0 t1 t2 : Point2f)
    (hD : det3 s0.x s0.y 1 s1.x s1.y 1 s2.x s2.y 1 ≠ 0) :
    applyAffine (getAffineTransform s0 s1 s2 t0 t1 t2) s0 = t0
    ∧ applyAffine (getAffineTransform s0 s1 s2 t0 t1 t2) s1 = t1
    ∧ applyAffine (getAffineTransform s0 s1 s2 t0 t1 t2) s2 = t2 := by
  have hD2 : det3 s0.x s0.y 1 s1.x s1.y 1 s2.x s2.y 1 ≠ 0 := hD
  simp only [det3] at hD2
  refine ⟨point_eq_of_parts ?_ ?_, point_eq_of_parts ?_ ?_, point_eq_of_parts ?_ ?_⟩ <;>
    · simp only [applyAffine, getAffineTransform, det3]
      exact div_combine _ _ _ _ _ _ _ hD2 (by ring)

lemma topLeftPoint_rotate_general (l : List Point2f) (k : Nat) (h2 : 2 ≤ l.length)
    (hpw : List.Pairwise (fun u v => u.x ≠ v.x) l)
    (hb : ∀ q ∈ l, q.x < fltMax) :
    (topLeftPoint (l.rotate k)).1 = (topLeftPoint l).1 := by
  have hsym : Symmetric (fun u v : Point2f => u.x ≠ v.x) := fun _ _ h => Ne.symm h
  have hperm : List.Perm (l.rotate k) l := l.rotate_perm k
  have hpw2 : List.Pairwise (fun u v => u.x ≠ v.x) (l.rotate k) :=
    (hperm.pairwise_iff @hsym).mpr hpw
  have hb2 : ∀ q ∈ l.rotate k, q.x < fltMax := fun q hq => hb q (hperm.mem_iff.mp hq)
  obtain ⟨m, a, hm, ha, hlt, hmin, hsec, heq⟩ := topLeftPoint_charCore l h2 hb hpw
  obtain ⟨m2, a2, hm2, ha2, hlt2, hmin2, hsec2, heq2⟩ :=
    topLeftPoint_charCore (l.rotate k) (by rw [List.length_rotate]; exact h2) hb2 hpw2
  rw [heq, heq2]
  exact selected_unique l (pairwise_x_inj l hpw)
    (hperm.mem_iff.mp hm2) (hperm.mem_iff.mp ha2) hlt2
    (fun q hq => hmin2 q (hperm.mem_iff.mpr hq))
    (fun q hq hqne => hsec2 q (hperm.mem_iff.mpr hq) hqne)
    hm ha hlt hmin hsec

lemma processRegion_mismatch (cfg : Config) (alphabetLen : Nat) (rd : RegionData)
    (htr : cfg.tr = true) (hw : cfg.recogWidth ≠ alphabetLen) :
    processRegion cfg alphabetLen rd = .error .alphabetMismatch := by
  simp [processRegion, htr, hw]

lemma processRegions_mismatch (cfg : Config) (alphabetLen : Nat)
    (htr : cfg.tr = true) (hw : cfg.recogWidth ≠ alphabetLen) (l : List RegionData) :
    processRegions cfg alphabetLen l
      = ([], if l = [] then none else some .alphabetMismatch) := by
  cases l with
  | nil => rfl
  | cons rd rest =>
      simp [processRegions, processRegion_mismatch cfg alphabetLen rd htr hw]

lemma runFrames_mismatch_lines (cfg : Config) (alphabetLen : Nat)
    (frames : List FrameData)
    (htr : cfg.tr = true) (hw : cfg.recogWidth ≠ alphabetLen) :
    (runFrames cfg alphabetLen frames).1 = [] := by
  induction frames with
  | nil => rfl
  | cons f rest ih =>
      simp only [runFrames]
      rw [processRegions_mismatch cfg alphabetLen htr hw]
      by_cases hc : capRects cfg.maxRectNum (frameRects cfg f) = []
      · simp [hc, ih]
      · simp [hc]

lemma runFrames_mismatch_notd (cfg : Config) (alphabetLen : Nat)
    (f : FrameData) (rest : List FrameData)
    (htr : cfg.tr = true) (hw : cfg.recogWidth ≠ alphabetLen) (htd : cfg.td = false)
    (hcap : cfg.maxRectNum < 0 ∨ 1 ≤ cfg.maxRectNum) :
    runFrames cfg alphabetLen (f :: rest) = ([], 0, some .alphabetMismatch) := by
  have hrects : frameRects cfg f = [sentinelRegion f] := by simp [frameRects, htd]
  have hcap2 : capRects cfg.maxRectNum [sentinelRegion f] = [sentinelRegion f] := by
    unfold capRects
    rw [if_neg]
    simp only [List.length_singleton]
    omega
  simp only [runFrames, hrects, hcap2]
  rw [processRegions_mismatch cfg alphabetLen htr hw]
  simp

/-- Claim C1, counterexample: the frozen claim states that for a 4-point
input whose x coordinates are pairwise distinct and not nearly tied, the
point of strictly smallest x is returned regardless of the other points.
On exC1pts the x coordinates are pairwise at least 100 apart, the point
(0,10) is the unique strict minimum in x, yet topLeftPoint returns
(100,0) — the second most-left point, which has a smaller y. -/
theorem topLeftPoint_not_min_x :
    List.Pairwise (fun u v : Point2f => u.x ≠ v.x) exC1pts
    ∧ ({ x := 0, y := 10 } : Point2f) ∈ exC1pts
    ∧ ({ x := 0, y := 10 } : Point2f).x = 0
    ∧ (∀ q ∈ exC1pts, q = { x := 0, y := 10 } ∨ (100 : ℚ) ≤ q.x)
    ∧ (topLeftPoint exC1pts).1 = { x := 100, y := 0 }
    ∧ (topLeftPoint exC1pts).1 ≠ { x := 0, y := 10 } := by decide

/-- Claim C1 (amended): for every 4-point input with pairwise distinct
x coordinates below FLT_MAX, topLeftPoint unconditionally compares the two
most-left points by y — there is no near-tie test — returning the second
most-left point whenever its y is strictly smaller than that of the
most-left point, and the most-left point otherwise. -/
theorem topLeftPoint_two_most_left_by_y (p0 p1 p2 p3 : Point2f)
    (hpw : List.Pairwise (fun u v => u.x ≠ v.x) [p0, p1, p2, p3])
    (hb : ∀ q ∈ [p0, p1, p2, p3], q.x < fltMax) :
    ∃ m a, m ∈ [p0, p1, p2, p3] ∧ a ∈ [p0, p1, p2, p3] ∧ m.x < a.x
      ∧ (∀ q ∈ [p0, p1, p2, p3], m.x ≤ q.x)
      ∧ (∀ q ∈ [p0, p1, p2, p3], q ≠ m → a.x ≤ q.x)
      ∧ (topLeftPoint [p0, p1, p2, p3]).1 = if a.y < m.y then a else m :=
  topLeftPoint_charCore [p0, p1, p2, p3] (by simp) hb hpw

/-- Witness for the amended claim C1 at the concrete input exC1pts. -/
theorem topLeftPoint_two_most_left_by_y_witness :
    (List.Pairwise (fun u v : Point2f => u.x ≠ v.x)
        [{ x := 0, y := 10 }, { x := 100, y := 0 }, { x := 200, y := 5 }, { x := 300, y := 6 }])
    ∧ (∃ m a, m ∈ [({ x := 0, y := 10 } : Point2f), { x := 100, y := 0 }, { x := 200, y := 5 }, { x := 300, y := 6 }]
        ∧ a ∈ [({ x := 0, y := 10 } : Point2f), { x := 100, y := 0 }, { x := 200, y := 5 }, { x := 300, y := 6 }]
        ∧ m.x < a.x
        ∧ (∀ q ∈ [({ x := 0, y := 10 } : Point2f), { x := 100, y := 0 }, { x := 200, y := 5 }, { x := 300, y := 6 }], m.x ≤ q.x)
        ∧ (∀ q ∈ [({ x := 0, y := 10 } : Point2f), { x := 100, y := 0 }, { x := 200, y := 5 }, { x := 300, y := 6 }], q ≠ m → a.x ≤ q.x)
        ∧ (topLeftPoint [({ x := 0, y := 10 } : Point2f), { x := 100, y := 0 }, { x := 200, y := 5 }, { x := 300, y := 6 }]).1
            = if a.y < m.y then a else m) :=
  ⟨by decide, topLeftPoint_two_most_left_by_y _ _ _ _ (by decide) (by decide)⟩

/-- Claim C8, counterexample: anchor selection is not invariant under
cyclic rotation in general.  On exC8pts (three points tied at the minimum
x) the original order selects (0,1) while the rotation by two selects
(0,3): different points by coordinate value. -/
theorem topLeftPoint_rotation_dependent :
    (topLeftPoint exC8pts).1 = { x := 0, y := 1 }
    ∧ (topLeftPoint (exC8pts.rotate 2)).1 = { x := 0, y := 3 }
    ∧ (topLeftPoint (exC8pts.rotate 2)).1 ≠ (topLeftPoint exC8pts).1 := by decide

/-- Claim C8 (amended): for every 4-point list whose x coordinates are
pairwise distinct and below FLT_MAX, topLeftPoint applied to any cyclic
rotation of the list yields the same selected point by coordinate value. -/
theorem topLeftPoint_rotation_invariant (p0 p1 p2 p3 : Point2f) (k : Nat)
    (hpw : List.Pairwise (fun u v => u.x ≠ v.x) [p0, p1, p2, p3])
    (hb : ∀ q ∈ [p0, p1, p2, p3], q.x < fltMax) :
    (topLeftPoint (([p0, p1, p2, p3]).rotate k)).1 = (topLeftPoint [p0, p1, p2, p3]).1 :=
  topLeftPoint_rotate_general [p0, p1, p2, p3] k (by simp) hpw hb

/-- Witness for the amended claim C8 at the concrete input exC1pts,
rotated by one. -/
theorem topLeftPoint_rotation_invariant_witness :
    (List.Pairwise (fun u v : Point2f => u.x ≠ v.x)
        [{ x := 0, y := 10 }, { x := 100, y := 0 }, { x := 200, y := 5 }, { x := 300, y := 6 }])
    ∧ (topLeftPoint (([({ x := 0, y := 10 } : Point2f), { x := 100, y := 0 }, { x := 200, y := 5 }, { x := 300, y := 6 }]).rotate 1)).1
        = (topLeftPoint [({ x := 0, y := 10 } : Point2f), { x := 100, y := 0 }, { x := 200, y := 5 }, { x := 300, y := 6 }]).1 :=
  ⟨by decide, topLeftPoint_rotation_invariant _ _ _ _ 1 (by decide) (by decide)⟩

/-- Claim C10: for every non-empty point list whose coordinates are all
strictly below FLT_MAX, topLeftPoint writes an index in [0, length) — it
never leaves the -1 initial value — and for a 4-point list the three
corner indices read by cropImage (the index and its two mod-4 successors)
are in bounds. -/
theorem topLeftPoint_idx_in_range (pts : List Point2f) (hne : pts ≠ [])
    (hb : ∀ p ∈ pts, p.x < fltMax ∧ p.y < fltMax) :
    0 ≤ (topLeftPoint pts).2 ∧ (topLeftPoint pts).2 < (pts.length : Int)
      ∧ (pts.length = 4 →
          ((topLeftPoint pts).2.toNat < 4
            ∧ ((topLeftPoint pts).2.toNat + 1) % 4 < 4
            ∧ ((topLeftPoint pts).2.toNat + 2) % 4 < 4)) := by
  have hinv := rangeInv_loop pts 0 tlInit (Or.inl ⟨rfl, rfl⟩) hb
  simp only [Nat.zero_add] at hinv
  rcases hinv with ⟨hn, -⟩ | ⟨h1, h2, h3, h4, h5⟩
  · exact absurd (List.length_eq_zero.mp hn) hne
  · have key : 0 ≤ (topLeftPoint pts).2 ∧ (topLeftPoint pts).2 < (pts.length : Int) := by
      simp only [topLeftPoint]
      split_ifs with hc
      · rcases h5 with ⟨-, hpa⟩ | ⟨h5a, h5b⟩
        · rw [hpa] at hc
          exact absurd hc (not_lt.mpr (le_of_lt h4))
        · exact ⟨h5a, h5b⟩
      · exact ⟨h1, h2⟩
    refine ⟨key.1, key.2, fun hlen => ?_⟩
    have k1 := key.1
    have k2 := key.2
    rw [hlen] at k2
    refine ⟨by omega, by omega, by omega⟩

/-- Witness for claim C10 at the concrete input exC1pts. -/
theorem topLeftPoint_idx_in_range_witness :
    exC1pts ≠ []
    ∧ 0 ≤ (topLeftPoint exC1pts).2 ∧ (topLeftPoint exC1pts).2 < (exC1pts.length : Int)
    ∧ (exC1pts.length = 4 →
        ((topLeftPoint exC1pts).2.toNat < 4
          ∧ ((topLeftPoint exC1pts).2.toNat + 1) % 4 < 4
          ∧ ((topLeftPoint exC1pts).2.toNat + 2) % 4 < 4)) :=
  ⟨by decide, (topLeftPoint_idx_in_range exC1pts (by decide) (by decide)).1,
    (topLeftPoint_idx_in_range exC1pts (by decide) (by decide)).2.1,
    (topLeftPoint_idx_in_range exC1pts (by decide) (by decide)).2.2⟩

/-- Claim C2, counterexample: with a recognizer width of 5 against the
internal alphabet of length 3, the run does fail fatally with the
mismatch error, but only once a region reaches the recognizer: the first
frame (which has no detected regions) is fully processed before the
failure, contradicting an abort before any frame is processed. -/
theorem widthMismatch_after_processed_frame :
    exCfgMismatch.tr = true
    ∧ exCfgMismatch.recogWidth ≠ (kAlphabet exCfgMismatch.trSymbols).length
    ∧ runMain exCfgMismatch exFramesMismatch = ([], 1, some RunError.alphabetMismatch)
    ∧ (runMain exCfgMismatch exFramesMismatch).2.1 ≠ 0 := by decide

/-- Claim C2 (amended): when a recognizer is configured and its output
width differs from the internal alphabet length, the run aborts with the
fatal mismatch error at the first region that reaches the recognizer, and
no per-region output line is ever emitted; frames with no candidate
regions before that point are processed normally.  In particular, with no
detector configured (so that a sentinel region exists from the first
frame) and the region cap not set to zero, the run aborts during the
first frame with no output and no fully processed frame. -/
theorem runMain_width_mismatch_aborts (cfg : Config) (frames : List FrameData)
    (htr : cfg.tr = true) (hpad : '#' ∉ cfg.trSymbols)
    (hw : cfg.recogWidth ≠ (kAlphabet cfg.trSymbols).length) :
    (runMain cfg frames).1 = []
    ∧ (cfg.td = false → (cfg.maxRectNum < 0 ∨ 1 ≤ cfg.maxRectNum) → frames ≠ [] →
        runMain cfg frames = ([], 0, some RunError.alphabetMismatch)) := by
  have hrm : runMain cfg frames = runFrames cfg (kAlphabet cfg.trSymbols).length frames := by
    simp [runMain, hpad]
  constructor
  · rw [hrm]
    exact runFrames_mismatch_lines cfg _ frames htr hw
  · intro htd hcap hne
    rcases frames with - | ⟨f, rest⟩
    · exact absurd rfl hne
    · rw [hrm]
      exact runFrames_mismatch_notd cfg _ f rest htr hw htd hcap

/-- Witness for the amended claim C2 at a concrete no-detector run. -/
theorem runMain_width_mismatch_aborts_witness :
    exCfgNoDet.tr = true ∧ ('#' ∉ exCfgNoDet.trSymbols)
    ∧ exCfgNoDet.recogWidth ≠ (kAlphabet exCfgNoDet.trSymbols).length
    ∧ (runMain exCfgNoDet [exFrameEmpty]).1 = []
    ∧ (exCfgNoDet.td = false → (exCfgNoDet.maxRectNum < 0 ∨ 1 ≤ exCfgNoDet.maxRectNum) →
        [exFrameEmpty] ≠ [] →
        runMain exCfgNoDet [exFrameEmpty] = ([], 0, some RunError.alphabetMismatch)) :=
  ⟨by decide, by decide, by decide,
    (runMain_width_mismatch_aborts exCfgNoDet [exFrameEmpty] (by decide) (by decide) (by decide)).1,
    (runMain_width_mismatch_aborts exCfgNoDet [exFrameEmpty] (by decide) (by decide) (by decide)).2⟩

/-- Claim C3: an alphabet string containing the reserved pad symbol makes
the run fail immediately — no frame is processed and nothing is emitted —
while an alphabet string without it yields the internal alphabet obtained
by appending the pad symbol, and processing proceeds to the frame loop. -/
theorem runMain_pad_symbol_check (cfg : Config) (frames : List FrameData) :
    ('#' ∈ cfg.trSymbols →
        runMain cfg frames = ([], 0, some RunError.padSymbolInAlphabet))
    ∧ ('#' ∉ cfg.trSymbols →
        kAlphabet cfg.trSymbols = cfg.trSymbols ++ ['#']
        ∧ runMain cfg frames = runFrames cfg (kAlphabet cfg.trSymbols).length frames) := by
  constructor
  · intro h
    simp [runMain, h]
  · intro h
    exact ⟨rfl, by simp [runMain, h]⟩

/-- Witness for claim C3: a pad-containing symbol set fails before any
frame of a non-empty stream is processed. -/
theorem runMain_pad_symbol_check_witness :
    ('#' ∈ exCfgPad.trSymbols)
    ∧ runMain exCfgPad [exFrameEmpty] = ([], 0, some RunError.padSymbolInAlphabet) :=
  ⟨by decide, (runMain_pad_symbol_check exCfgPad [exFrameEmpty]).1 (by decide)⟩

/-- Claim C4: the confidence filter forwards the decoded string unchanged
when the confidence is at least the threshold (inclusive at equality) and
the empty string when it is below, and it never modifies the confidence
value itself. -/
theorem thresholdFilter_spec (s : String) (c t : ℚ) :
    (t ≤ c → thresholdFilter s c t = (s, c))
    ∧ (c < t → thresholdFilter s c t = ("", c))
    ∧ (c = t → thresholdFilter s c t = (s, c))
    ∧ (thresholdFilter s c t).2 = c := by
  refine ⟨fun h => ?_, fun h => ?_, fun h => ?_, rfl⟩
  · simp only [thresholdFilter]
    rw [if_pos h]
  · simp only [thresholdFilter]
    rw [if_neg (not_le.mpr h)]
  · simp only [thresholdFilter]
    rw [if_pos h.ge]

/-- Witness for claim C4 at the boundary confidence equal to threshold. -/
theorem thresholdFilter_spec_witness :
    ((1 : ℚ) ≤ 1 ∧ thresholdFilter "ab" 1 1 = ("ab", 1))
    ∧ ((1 : ℚ) < 2 ∧ thresholdFilter "cd" 1 2 = ("", 1)) :=
  ⟨⟨by decide, (thresholdFilter_spec "ab" 1 1).1 (by decide)⟩,
   ⟨by decide, (thresholdFilter_spec "cd" 1 2).2.1 (by decide)⟩⟩

/-- Claim C5: for every 4-point corner list and anchor index i < 4, the
rectification transform is built from exactly the three corners at
indices i, (i+1) mod 4 and (i+2) mod 4: when those three corners are not
collinear, the computed affine map carries them to (0,0),
(targetWidth-1, 0) and (targetWidth-1, targetHeight-1) respectively, and
replacing the fourth corner (index (i+3) mod 4) by any point leaves the
transform unchanged. -/
theorem cropTransform_three_corners (p0 p1 p2 p3 q : Point2f) (tw th : Int) (i : Nat)
    (hi : i < 4)
    (hD : det3 (([p0, p1, p2, p3]).getD i { x := 0, y := 0 }).x
            (([p0, p1, p2, p3]).getD i { x := 0, y := 0 }).y 1
            (([p0, p1, p2, p3]).getD ((i + 1) % 4) { x := 0, y := 0 }).x
            (([p0, p1, p2, p3]).getD ((i + 1) % 4) { x := 0, y := 0 }).y 1
            (([p0, p1, p2, p3]).getD ((i + 2) % 4) { x := 0, y := 0 }).x
            (([p0, p1, p2, p3]).getD ((i + 2) % 4) { x := 0, y := 0 }).y 1 ≠ 0) :
    applyAffine (cropTransform [p0, p1, p2, p3] tw th i)
        (([p0, p1, p2, p3]).getD i { x := 0, y := 0 }) = { x := 0, y := 0 }
    ∧ applyAffine (cropTransform [p0, p1, p2, p3] tw th i)
        (([p0, p1, p2, p3]).getD ((i + 1) % 4) { x := 0, y := 0 })
        = { x := ((tw - 1 : Int) : ℚ), y := 0 }
    ∧ applyAffine (cropTransform [p0, p1, p2, p3] tw th i)
        (([p0, p1, p2, p3]).getD ((i + 2) % 4) { x := 0, y := 0 })
        = { x := ((tw - 1 : Int) : ℚ), y := ((th - 1 : Int) : ℚ) }
    ∧ cropTransform (([p0, p1, p2, p3]).set ((i + 3) % 4) q) tw th i
        = cropTransform [p0, p1, p2, p3] tw th i := by
  have h := getAffineTransform_maps
    (([p0, p1, p2, p3]).getD i { x := 0, y := 0 })
    (([p0, p1, p2, p3]).getD ((i + 1) % 4) { x := 0, y := 0 })
    (([p0, p1, p2, p3]).getD ((i + 2) % 4) { x := 0, y := 0 })
    { x := 0, y := 0 } { x := ((tw - 1 : Int) : ℚ), y := 0 }
    { x := ((tw - 1 : Int) : ℚ), y := ((th - 1 : Int) : ℚ) } hD
  refine ⟨h.1, h.2.1, h.2.2, ?_⟩
  interval_cases i <;> rfl

/-- Witness for claim C5 on the unit-square corner list, anchor 0. -/
theorem cropTransform_three_corners_witness :
    (0 < 4
      ∧ det3 (exC5pts.getD 0 { x := 0, y := 0 }).x (exC5pts.getD 0 { x := 0, y := 0 }).y 1
          (exC5pts.getD ((0 + 1) % 4) { x := 0, y := 0 }).x
          (exC5pts.getD ((0 + 1) % 4) { x := 0, y := 0 }).y 1
          (exC5pts.getD ((0 + 2) % 4) { x := 0, y := 0 }).x
          (exC5pts.getD ((0 + 2) % 4) { x := 0, y := 0 }).y 1 ≠ 0)
    ∧ (applyAffine (cropTransform exC5pts 120 32 0)
          (exC5pts.getD 0 { x := 0, y := 0 }) = { x := 0, y := 0 }
        ∧ applyAffine (cropTransform exC5pts 120 32 0)
            (exC5pts.getD ((0 + 1) % 4) { x := 0, y := 0 })
            = { x := (((120 : Int) - 1 : Int) : ℚ), y := 0 }
        ∧ applyAffine (cropTransform exC5pts 120 32 0)
            (exC5pts.getD ((0 + 2) % 4) { x := 0, y := 0 })
            = { x := (((120 : Int) - 1 : Int) : ℚ), y := (((32 : Int) - 1 : Int) : ℚ) }
        ∧ cropTransform (exC5pts.set ((0 + 3) % 4) { x := 7, y := 9 }) 120 32 0
            = cropTransform exC5pts 120 32 0) :=
  ⟨⟨by decide, by simp [exC5pts, det3]⟩,
    cropTransform_three_corners { x := 0, y := 0 } { x := 1, y := 0 } { x := 1, y := 1 }
      { x := 0, y := 1 } { x := 7, y := 9 } 120 32 0 (by decide) (by simp [det3])⟩

/-- Claim C6: when the region cap N is non-negative and the region list is
longer than N, the forwarded list has exactly N regions, is sorted by
rectangle area descending, and together with the dropped regions is a
permutation of the input in which every kept region has area at least
that of every dropped region; when the cap is negative or not exceeded,
the list is forwarded unchanged in its original order. -/
theorem capRects_spec (n : Int) (l : List RegionData) :
    ((0 ≤ n ∧ n < (l.length : Int)) → ∃ dropped : List RegionData,
        List.Perm l (capRects n l ++ dropped)
        ∧ (capRects n l).length = n.toNat
        ∧ List.Sorted areaGE (capRects n l)
        ∧ (∀ a ∈ capRects n l, ∀ b ∈ dropped, areaOf b ≤ areaOf a))
    ∧ ((n < 0 ∨ (l.length : Int) ≤ n) → capRects n l = l) := by
  constructor
  · rintro ⟨h1, h2⟩
    have hcap : capRects n l = (List.insertionSort areaGE l).take n.toNat := by
      unfold capRects
      rw [if_pos ⟨h1, h2⟩]
    have hlen : (List.insertionSort areaGE l).length = l.length :=
      (List.perm_insertionSort areaGE l).length_eq
    refine ⟨(List.insertionSort areaGE l).drop n.toNat, ?_, ?_, ?_, ?_⟩
    · rw [hcap, List.take_append_drop]
      exact (List.perm_insertionSort areaGE l).symm
    · rw [hcap, List.length_take, hlen]
      omega
    · rw [hcap]
      exact List.Pairwise.sublist (List.take_sublist _ _) (List.sorted_insertionSort areaGE l)
    · intro a ha b hb
      have hsplit := List.pairwise_append.mp
        (show List.Pairwise areaGE ((List.insertionSort areaGE l).take n.toNat
            ++ (List.insertionSort areaGE l).drop n.toNat) by
          rw [List.take_append_drop]
          exact List.sorted_insertionSort areaGE l)
      rw [hcap] at ha
      exact hsplit.2.2 a ha b hb
  · intro h
    have hn : ¬(0 ≤ n ∧ n < (l.length : Int)) := by
      rcases h with h | h
      · omega
      · omega
    unfold capRects
    rw [if_neg hn]

/-- Witness for claim C6: cap 1 over two regions of areas 1 and 4. -/
theorem capRects_spec_witness :
    (0 ≤ (1 : Int) ∧ (1 : Int) < (([exRegSmall, exRegBig].length : Int)))
    ∧ (∃ dropped : List RegionData,
        List.Perm [exRegSmall, exRegBig] (capRects 1 [exRegSmall, exRegBig] ++ dropped)
        ∧ (capRects 1 [exRegSmall, exRegBig]).length = (1 : Int).toNat
        ∧ List.Sorted areaGE (capRects 1 [exRegSmall, exRegBig])
        ∧ (∀ a ∈ capRects 1 [exRegSmall, exRegBig], ∀ b ∈ dropped, areaOf b ≤ areaOf a)) :=
  ⟨⟨by decide, by decide⟩,
    (capRects_spec 1 [exRegSmall, exRegBig]).1 ⟨by decide, by decide⟩⟩

/-- Claim C7: with no detector configured, the substituted region list is
exactly one sentinel region with center (0,0), zero width, zero height
and zero angle, and that sentinel is routed to the non-rectification
branch (central crop or whole frame), not to the affine rectification. -/
theorem frameRects_no_detector (cfg : Config) (f : FrameData) (htd : cfg.td = false) :
    frameRects cfg f = [sentinelRegion f]
    ∧ (frameRects cfg f).length = 1
    ∧ (sentinelRegion f).rect.center = { x := 0, y := 0 }
    ∧ (sentinelRegion f).rect.width = 0
    ∧ (sentinelRegion f).rect.height = 0
    ∧ (sentinelRegion f).rect.angle = 0
    ∧ ¬usesRectification cfg (sentinelRegion f)
    ∧ regionPoints cfg (sentinelRegion f) = (if cfg.ccFlag then [cfg.ccPoint] else []) := by
  have h1 : frameRects cfg f = [sentinelRegion f] := by
    simp [frameRects, htd]
  have h2 : ¬usesRectification cfg (sentinelRegion f) := by
    simp [usesRectification, htd, sentinelRegion]
  refine ⟨h1, by rw [h1]; rfl, rfl, rfl, rfl, rfl, h2, ?_⟩
  simp only [regionPoints]
  rw [if_neg h2]

/-- Witness for claim C7 on a concrete no-detector configuration. -/
theorem frameRects_no_detector_witness :
    exCfgNoTd.td = false
    ∧ frameRects exCfgNoTd exFrameEmpty = [sentinelRegion exFrameEmpty]
    ∧ ¬usesRectification exCfgNoTd (sentinelRegion exFrameEmpty)
    ∧ regionPoints exCfgNoTd (sentinelRegion exFrameEmpty)
        = (if exCfgNoTd.ccFlag then [exCfgNoTd.ccPoint] else []) :=
  ⟨by decide, (frameRects_no_detector exCfgNoTd exFrameEmpty (by decide)).1,
    (frameRects_no_detector exCfgNoTd exFrameEmpty (by decide)).2.2.2.2.2.2.1,
    (frameRects_no_detector exCfgNoTd exFrameEmpty (by decide)).2.2.2.2.2.2.2⟩

/-- Claim C9: every coordinate printed by the per-region emission is the
integer truncation of the float coordinate clipped to [0, dimension-1]
(min(max(int(v), 0), dim-1)); when the image is at least 1 x 1 every
emitted coordinate lies in that range, the coordinates of all points
appear comma-separated in traversal order, and the decoded string follows
after a final comma exactly when recognition is enabled. -/
theorem emitLine_spec (cols rows : Int) (points : List Point2f) (res : String)
    (hc : 1 ≤ cols) (hr : 1 ≤ rows) :
    (∀ p ∈ points,
        0 ≤ clip (truncQ p.x) (cols - 1) ∧ clip (truncQ p.x) (cols - 1) ≤ cols - 1
        ∧ 0 ≤ clip (truncQ p.y) (rows - 1) ∧ clip (truncQ p.y) (rows - 1) ≤ rows - 1)
    ∧ emitLine cols rows points true res
        = String.intercalate "," ((coordFields cols rows points).map toString) ++ "," ++ res
    ∧ emitLine cols rows points false res
        = String.intercalate "," ((coordFields cols rows points).map toString) := by
  have hcl : ∀ v m : Int, 0 ≤ m → 0 ≤ clip v m ∧ clip v m ≤ m := by
    intro v m hm
    unfold clip
    exact ⟨le_min (le_max_right v 0) hm, min_le_right _ _⟩
  refine ⟨?_, ?_, ?_⟩
  · intro p hp
    obtain ⟨a1, a2⟩ := hcl (truncQ p.x) (cols - 1) (by omega)
    obtain ⟨b1, b2⟩ := hcl (truncQ p.y) (rows - 1) (by omega)
    exact ⟨a1, a2, b1, b2⟩
  · simp [emitLine, String.append_assoc]
  · simp [emitLine]

/-- Witness for claim C9 on a 10 x 8 image and two points, one above and
one below the valid range. -/
theorem emitLine_spec_witness :
    ((1 : Int) ≤ 10 ∧ (1 : Int) ≤ 8)
    ∧ ((∀ p ∈ [({ x := 3, y := 100 } : Point2f), { x := -5, y := 2 }],
          0 ≤ clip (truncQ p.x) (10 - 1) ∧ clip (truncQ p.x) (10 - 1) ≤ 10 - 1
          ∧ 0 ≤ clip (truncQ p.y) (8 - 1) ∧ clip (truncQ p.y) (8 - 1) ≤ 8 - 1)
        ∧ emitLine 10 8 [({ x := 3, y := 100 } : Point2f), { x := -5, y := 2 }] true "ok"
            = String.intercalate ","
                ((coordFields 10 8 [({ x := 3, y := 100 } : Point2f), { x := -5, y := 2 }]).map toString)
              ++ "," ++ "ok"
        ∧ emitLine 10 8 [({ x := 3, y := 100 } : Point2f), { x := -5, y := 2 }] false "ok"
            = String.intercalate ","
                ((coordFields 10 8 [({ x := 3, y := 100 } : Point2f), { x := -5, y := 2 }]).map toString)) :=
  ⟨⟨by decide, by decide⟩,
    emitLine_spec 10 8 [{ x := 3, y := 100 }, { x := -5, y := 2 }] "ok" (by decide) (by decide)⟩
